import Mathlib

/-!
Shallow embedding of `src/packages/artillery/lib/dist.js` (the phase
partitioner `divideWork` and its numeric primitives `distribute`,
`distributeEven`, `sum`), together with proofs checking the repository's
natural-language specification against it.

Modelling conventions:
* JavaScript numbers are modelled as `ℚ`.  The spec and all claims only
  exercise the arithmetic on small integers and exact divisions, where
  IEEE doubles and rationals agree.
* A possibly-absent field of a phase object is an `Option`; JavaScript
  truthiness of a numeric field (`undefined`/`0` are falsy) is `truthyQ`.
* The worker count `numWorkers` is an `ℤ` so that zero and negative
  counts (claim C6) behave exactly like the JS `for (i = 0; i < n; i++)`
  loops: a non-positive bound runs zero iterations (`Int.toNat`).
* The `assert` inside `distribute` is modelled by `distributeChecked`,
  returning `Except String`: `.error` is a thrown `AssertionError`,
  `.ok` a normal return.  `divideWork` is therefore `Except`-valued.
* `script.config.phases` aside, a specification carries arbitrary other
  fields which `divideWork` deep-copies; they are modelled by the opaque
  association lists `Config.extra` / `Script.extra`, and the `before` /
  `after` hooks by two `Option String` fields.
-/

namespace Artillery

-- The arithmetic of `ℚ` is irreducible by default, which blocks `decide`
-- on the concrete rational computations used by the witnesses below.
attribute [local semireducible] Rat.add Rat.mul Rat.inv Rat.sub

/-- JavaScript truthiness of a possibly-absent numeric field:
`undefined` and `0` are falsy, any other number is truthy
(`NaN` has no counterpart in `ℚ` and does not arise in the spec). -/
def truthyQ (o : Option ℚ) : Bool :=
  match o with
  | none => false
  | some v => decide (v ≠ 0)

/-- A phase object of `config.phases`.  Every field a phase object of
`dist.js` ever reads or writes is present; an absent field is `none`. -/
structure Phase where
  name : Option String := none
  duration : Option ℚ := none
  arrivalRate : Option ℚ := none
  rampTo : Option ℚ := none
  arrivalCount : Option ℚ := none
  maxVusers : Option ℚ := none
  pause : Option ℚ := none
  totalWorkers : Option ℕ := none
  worker : Option ℕ := none
  deriving Repr, DecidableEq

instance : Inhabited Phase := ⟨{}⟩

/-- The `config` part of a script: the ordered phase list plus the
other configuration fields (modelled opaquely), which the partitioner
must deep-copy unchanged. -/
structure Config where
  phases : List Phase := []
  extra : List (String × String) := []
  deriving Repr, DecidableEq

/-- A script (specification): `config`, the `before`/`after` hooks
(opaque payloads) and the remaining top-level fields (opaque). -/
structure Script where
  config : Config := {}
  before : Option String := none
  after : Option String := none
  extra : List (String × String) := []
  deriving Repr, DecidableEq

instance : Inhabited Script := ⟨{}⟩

instance {ε α : Type} [DecidableEq ε] [DecidableEq α] : DecidableEq (Except ε α)
  | .error e, .error f =>
    if h : e = f then .isTrue (by rw [h]) else .isFalse (by intro hh; cases hh; exact h rfl)
  | .error _, .ok _ => .isFalse (by intro hh; cases hh)
  | .ok _, .error _ => .isFalse (by intro hh; cases hh)
  | .ok x, .ok y =>
    if h : x = y then .isTrue (by rw [h]) else .isFalse (by intro hh; cases hh; exact h rfl)

/-- `sum(a)` of `dist.js`: left fold accumulating `+` from `0`. -/
def sumList (a : List ℚ) : ℚ :=
  a.foldl (· + ·) 0

/-- `distributeEven(m, n)` of `dist.js`: push `m / n` once per loop
iteration `0 ≤ i < n` (zero iterations when `n ≤ 0`, as in JS). -/
def distributeEven (m : ℚ) (n : ℤ) : List ℚ :=
  (List.range n.toNat).map (fun _ => m / (n : ℚ))

/-- The `else` loop of `distribute`: each iteration pushes `baseCount`,
then increments the pushed entry and decrements `extraItems` while
`extraItems > 0`.  Fuel is the remaining iteration count. -/
def distributeLoop (base : ℚ) : ℚ → ℕ → List ℚ
  | _, 0 => []
  | extra, k + 1 =>
    if 0 < extra then (base + 1) :: distributeLoop base (extra - 1) k
    else base :: distributeLoop base extra k

/-- `distribute(m, n)` of `dist.js` (without its final `assert`, which
`distributeChecked` models).  `baseCount = Math.floor(m / n)` and
`extraItems = m % n`; on every path where the loop body actually reads
them we have `0 < n ≤ m`, and there the JS remainder equals
`m - n * ⌊m / n⌋` (for `n ≤ 0` the loop runs zero times and returns
`[]` exactly as the JS loop does, whatever `baseCount` evaluates to). -/
def distribute (m : ℚ) (n : ℤ) : List ℚ :=
  if m < (n : ℚ) then
    (List.range n.toNat).map (fun (i : ℕ) => if (i : ℚ) < m then (1 : ℚ) else 0)
  else
    distributeLoop ((⌊m / (n : ℚ)⌋ : ℤ) : ℚ)
      (m - (n : ℚ) * ((⌊m / (n : ℚ)⌋ : ℤ) : ℚ)) n.toNat

/-- `distribute` together with its `assert(m === sum(result))`:
`.error` is the thrown `AssertionError`, `.ok` the normal return. -/
def distributeChecked (m : ℚ) (n : ℤ) : Except String (List ℚ) :=
  if m = sumList (distribute m n) then .ok (distribute m n)
  else .error (toString m ++ " === " ++ toString (sumList (distribute m n)))

/-- The phase kinds distinguished by the dispatch chain of `divideWork`
(lines 26-84 of `dist.js`). -/
inductive PhaseKind where
  | ramping
  | constantRate
  | fixedCount
  | pauseKind
  | unknown
  deriving Repr, DecidableEq

/-- The dispatch chain of `divideWork` as the code tests it, in source
order: `if (phase.rampTo)`, `if (phase.arrivalRate && !phase.rampTo)`,
`if (phase.arrivalCount)`, `if (phase.pause)`, else the unknown-phase
fallback.  Each test is JS truthiness of the field. -/
def phaseKind (p : Phase) : PhaseKind :=
  if truthyQ p.rampTo then .ramping
  else if truthyQ p.arrivalRate && !truthyQ p.rampTo then .constantRate
  else if truthyQ p.arrivalCount then .fixedCount
  else if truthyQ p.pause then .pauseKind
  else .unknown

/-- The classification exactly as claim C7 words it, by field
*presence* ("ramping if rampTo is present; else constant-rate if
arrivalRate is present and rampTo is absent; else fixed-count if
arrivalCount is present; else pause; else Unknown").  Stated from the
claim's words, to be compared with `phaseKind` from the source. -/
def claimPresenceKind (p : Phase) : PhaseKind :=
  if p.rampTo.isSome then .ramping
  else if p.arrivalRate.isSome && !p.rampTo.isSome then .constantRate
  else if p.arrivalCount.isSome then .fixedCount
  else if p.pause.isSome then .pauseKind
  else .unknown

/-- `activeWorkers` of the `rampTo` branch:
`Math.max(rates.filter(r => r > 0).length, ramps.filter(r => r > 0).length)`
where `rates`/`ramps` are the continuous splits of the (defaulted)
`arrivalRate` and of `rampTo`. -/
def rampActiveWorkers (p : Phase) (n : ℤ) : ℕ :=
  max ((distributeEven (p.arrivalRate.getD 0) n).filter (fun r => decide (0 < r))).length
      ((distributeEven (p.rampTo.getD 0) n).filter (fun r => decide (0 < r))).length

/-- The adjustment of one original phase (lines 26-84 of `dist.js`),
returning the per-worker list of replacement phases: entry `i` is
`newPhases[i][phaseSpecIndex]` after the adjustment loop.  Each worker
starts from a deep clone of the original phase (`{ p with … }`).

* `rampTo` truthy: `phase.arrivalRate = phase.arrivalRate || 0` (the
  defaulted value is `getD 0`); continuous splits for rate and ramp;
  `maxVusers` integer-split over `rampActiveWorkers` when truthy, and
  worker `i` is assigned `maxVusers[i]`, which for `i` beyond that
  split's length is JS `undefined`, i.e. `none` (`List.get?`).
* `arrivalRate` truthy (and `rampTo` falsy): integer split of the rate
  (through the assert); `maxVusers` integer-split over the count of
  workers with a positive rate share when truthy, worker `i` getting
  `maxVusers[i] || 0` (`getD i 0`).
* `arrivalCount` truthy: worker 0 keeps the clone (the JS re-assignment
  of `newPhases[0][j].maxVusers` to `phase.maxVusers` is a no-op on the
  clone); every other worker gets `{ name: phase.name, pause:
  phase.duration }`.
* `pause` truthy: clone kept unchanged.
* otherwise: unknown phase, logged and passed through unmodified. -/
def phasePlan (phase : Phase) (n : ℤ) : Except String (List Phase) :=
  if truthyQ phase.rampTo then
    let rates := distributeEven (phase.arrivalRate.getD 0) n
    let ramps := distributeEven (phase.rampTo.getD 0) n
    let activeWorkers := rampActiveWorkers phase n
    (if truthyQ phase.maxVusers then
        Except.map some (distributeChecked (phase.maxVusers.getD 0) (activeWorkers : ℤ))
      else .ok none).map (fun mv =>
      (List.range n.toNat).map (fun i =>
        match mv with
        | some l =>
          { phase with arrivalRate := some (rates.getD i 0),
                       rampTo := some (ramps.getD i 0),
                       maxVusers := l.get? i }
        | none =>
          { phase with arrivalRate := some (rates.getD i 0),
                       rampTo := some (ramps.getD i 0) }))
  else if truthyQ phase.arrivalRate && !truthyQ phase.rampTo then
    (distributeChecked (phase.arrivalRate.getD 0) n).bind (fun rates =>
      let activeWorkers := (rates.filter (fun r => decide (0 < r))).length
      (if truthyQ phase.maxVusers then
          Except.map some (distributeChecked (phase.maxVusers.getD 0) (activeWorkers : ℤ))
        else .ok none).map (fun mv =>
        (List.range n.toNat).map (fun i =>
          match mv with
          | some l =>
            { phase with arrivalRate := some (rates.getD i 0),
                         maxVusers := some (l.getD i 0) }
          | none =>
            { phase with arrivalRate := some (rates.getD i 0) })))
  else if truthyQ phase.arrivalCount then
    .ok ((List.range n.toNat).map (fun i =>
      if i = 0 then phase
      else { name := phase.name, pause := phase.duration }))
  else if truthyQ phase.pause then
    .ok ((List.range n.toNat).map (fun _ => phase))
  else
    -- unknown phase spec definition: logged, clone passed through unmodified
    .ok ((List.range n.toNat).map (fun _ => phase))

/-- The whole adjustment loop `L.each(script.config.phases, …)`:
one per-worker plan per original phase, stopping at the first thrown
assertion as the JS loop does. -/
def buildPlans (n : ℤ) : List Phase → Except String (List (List Phase))
  | [] => .ok []
  | ph :: rest =>
    match phasePlan ph n with
    | .error e => .error e
    | .ok pl =>
      match buildPlans n rest with
      | .error e => .error e
      | .ok pls => .ok (pl :: pls)

/-- The in-place mutation `phase.arrivalRate = phase.arrivalRate || 0`
performed on the *original* phase object of every `rampTo`-truthy
phase (line 29 of `dist.js`). -/
def mutatePhase (p : Phase) : Phase :=
  if truthyQ p.rampTo then { p with arrivalRate := some (p.arrivalRate.getD 0) }
  else p

/-- The state of the input script object after `divideWork` returns:
only the mutation of `mutatePhase` is ever applied to it. -/
def finalScript (s : Script) : Script :=
  { s with config := { s.config with phases := s.config.phases.map mutatePhase } }

/-- The "Create new scripts" pass (lines 89-98 of `dist.js`): for each
worker `i < numWorkers`, a deep copy of the script with its phase list
replaced by `newPhases[i]` and the `before`/`after` hooks deleted. -/
def assembledScripts (s : Script) (n : ℤ) : Except String (List Script) :=
  (buildPlans n s.config.phases).map (fun plans =>
    (List.range n.toNat).map (fun i =>
      { s with config := { s.config with phases := plans.map (fun pl => pl.getD i default) },
               before := none,
               after := none }))

/-- Modelled from the spec: `isIdlePhase` comes from
`@artilleryio/int-core`, whose source is not under `src/`.  Spec §4.4:
a phase is load-free if it is "a `Pause` phase, or any rate/ramp/count
phase whose effective load for this worker is zero". -/
def isIdlePhase (p : Phase) : Bool :=
  truthyQ p.pause ||
    ((p.arrivalRate.isSome || p.rampTo.isSome || p.arrivalCount.isSome) &&
      decide (p.arrivalRate.getD 0 = 0) &&
      decide (p.rampTo.getD 0 = 0) &&
      decide (p.arrivalCount.getD 0 = 0))

/-- One script of the identity-annotation pass: set `totalWorkers` on
every phase to the survivor count and `worker` to this script's 1-based
position among survivors. -/
def annotatePhase (total k : ℕ) (p : Phase) : Phase :=
  { p with totalWorkers := some total, worker := some k }

/-- Apply `annotatePhase` to every phase of one surviving script. -/
def annotateScript (total k : ℕ) (sc : Script) : Script :=
  { sc with config := { sc.config with phases := sc.config.phases.map (annotatePhase total k) } }

/-- The `result.forEach` pass of `divideWork` with its external
`activeWorkers` counter (initially 1, incremented per script). -/
def annotateFrom (total : ℕ) : ℕ → List Script → List Script
  | _, [] => []
  | k, sc :: rest => annotateScript total k sc :: annotateFrom total (k + 1) rest

/-- `divideWork(script, numWorkers)` of `dist.js`: adjust the phases,
assemble the per-worker scripts, drop the scripts whose phases are all
idle, and annotate the survivors. -/
def divideWork (s : Script) (n : ℤ) : Except String (List Script) :=
  (assembledScripts s n).map (fun newScripts =>
    let result := newScripts.filter (fun sc => !(sc.config.phases.all isIdlePhase))
    annotateFrom result.length 1 result)

/-! ### Concrete inputs used by witnesses and counterexamples -/

/-- The FixedCount phase of the spec's concrete example:
`arrivalCount = 50`, `duration = 60`. -/
def fixedCountPhaseEx : Phase := { duration := some 60, arrivalCount := some 50 }

/-- The RampingRate phase of the spec's concrete example:
`arrivalRate: 0, rampTo: 10, maxVusers: 100`. -/
def rampingPhaseEx : Phase := { arrivalRate := some 0, rampTo := some 10, maxVusers := some 100 }

/-- Worker copy of `rampingPhaseEx` in a 5-way split: `rampTo` share 2,
`maxVusers` share 20. -/
def rampingShareEx : Phase :=
  { arrivalRate := some 0, rampTo := some 2, maxVusers := some 20 }

/-- A script whose only phase is `ConstantRate{arrivalRate: 2}` (the
spec's idle-filtering example). -/
def constantScriptEx : Script :=
  { config := { phases := [{ duration := some 10, arrivalRate := some 2 }] } }

/-- A script whose only phase is a pause phase. -/
def pauseScriptEx : Script := { config := { phases := [{ pause := some 10 }] } }

/-- A ramping phase with the `arrivalRate` field absent. -/
def rampNoRateScriptEx : Script :=
  { config := { phases := [{ duration := some 60, rampTo := some 10 }] } }

/-- A phase carrying `arrivalRate: 0` together with `arrivalCount: 10`:
`arrivalRate` is present but falsy. -/
def zeroRatePhaseEx : Phase :=
  { duration := some 60, arrivalRate := some 0, arrivalCount := some 10 }

/-- Worker copy of `constantScriptEx`'s single phase with rate share `r`. -/
def constantWorkerEx (r : ℚ) : Script :=
  { config := { phases := [{ duration := some 10, arrivalRate := some r }] } }

/-- A surviving worker of the `constantScriptEx` split, annotated with
`totalWorkers = 2` and `worker = k`. -/
def constantAnnotEx (k : ℕ) : Script :=
  { config := { phases :=
      [{ duration := some 10, arrivalRate := some 1, totalWorkers := some 2, worker := some k }] } }

/-- A script with a constant-rate phase followed by a pause phase. -/
def twoPhaseScriptEx : Script :=
  { config := { phases :=
      [{ duration := some 10, arrivalRate := some 2 }, { pause := some 1 }] },
    before := some "hookB", after := some "hookA", extra := [("scenarios", "s")] }

/-- One worker of the 2-way split of `twoPhaseScriptEx` (hooks stripped). -/
def twoPhaseWorkerEx : Script :=
  { config := { phases :=
      [{ duration := some 10, arrivalRate := some 1 }, { pause := some 1 }] },
    extra := [("scenarios", "s")] }

/-- The per-phase plans of the 2-way split of `twoPhaseScriptEx`. -/
def twoPhasePlansEx : List (List Phase) :=
  [[{ duration := some 10, arrivalRate := some 1 },
    { duration := some 10, arrivalRate := some 1 }],
   [{ pause := some 1 }, { pause := some 1 }]]

/-! ### Lemmas about the numeric primitives -/

lemma foldl_add_shift (l : List ℚ) : ∀ a : ℚ, l.foldl (· + ·) a = a + l.foldl (· + ·) 0 := by
  induction l with
  | nil => intro a; simp
  | cons x t ih =>
    intro a
    simp only [List.foldl_cons]
    rw [ih (a + x), ih (0 + x)]
    ring

lemma sumList_nil : sumList [] = 0 := rfl

lemma sumList_cons (x : ℚ) (l : List ℚ) : sumList (x :: l) = x + sumList l := by
  simp only [sumList, List.foldl_cons]
  rw [foldl_add_shift l (0 + x), zero_add]

lemma distributeLoop_eq_map (base : ℚ) :
    ∀ (k e : ℕ), e ≤ k →
      distributeLoop base (e : ℚ) k =
        (List.range k).map (fun i => if i < e then base + 1 else base) := by
  intro k
  induction k with
  | zero =>
    intro e he
    obtain rfl : e = 0 := Nat.le_zero.mp he
    simp [distributeLoop]
  | succ k ih =>
    intro e he
    cases e with
    | zero =>
      simp only [distributeLoop, Nat.cast_zero]
      rw [if_neg (lt_irrefl (0 : ℚ))]
      have ih0 := ih 0 (Nat.zero_le k)
      rw [Nat.cast_zero] at ih0
      rw [ih0, List.range_succ_eq_map, List.map_cons, List.map_map]
      congr 1
    | succ e =>
      have hpos : (0 : ℚ) < ((e + 1 : ℕ) : ℚ) := by exact_mod_cast Nat.succ_pos e
      simp only [distributeLoop]
      rw [if_pos hpos]
      have hsub : ((e + 1 : ℕ) : ℚ) - 1 = (e : ℚ) := by push_cast; ring
      rw [hsub, ih e (Nat.succ_le_succ_iff.mp he)]
      rw [List.range_succ_eq_map, List.map_cons, List.map_map]
      congr 1
      · rw [if_pos (Nat.succ_pos e)]
      · apply List.map_congr_left
        intro i _
        simp only [Function.comp_apply]
        by_cases hie : i < e
        · rw [if_pos hie, if_pos (by omega)]
        · rw [if_neg hie, if_neg (by omega)]

lemma sumList_distributeLoop (base : ℚ) :
    ∀ (k e : ℕ), e ≤ k →
      sumList (distributeLoop base (e : ℚ) k) = k * base + e := by
  intro k
  induction k with
  | zero =>
    intro e he
    obtain rfl : e = 0 := Nat.le_zero.mp he
    simp [distributeLoop, sumList_nil]
  | succ k ih =>
    intro e he
    cases e with
    | zero =>
      simp only [distributeLoop, Nat.cast_zero]
      rw [if_neg (lt_irrefl (0 : ℚ))]
      rw [sumList_cons]
      have ih0 := ih 0 (Nat.zero_le k)
      rw [Nat.cast_zero] at ih0
      rw [ih0]
      push_cast
      ring
    | succ e =>
      have hpos : (0 : ℚ) < ((e + 1 : ℕ) : ℚ) := by exact_mod_cast Nat.succ_pos e
      simp only [distributeLoop]
      rw [if_pos hpos]
      rw [sumList_cons]
      have hsub : ((e + 1 : ℕ) : ℚ) - 1 = (e : ℚ) := by push_cast; ring
      rw [hsub, ih e (Nat.succ_le_succ_iff.mp he)]
      push_cast
      ring

/-- Closed form of `distribute` at natural inputs with a positive
worker count: the two allocation patterns of the spec. -/
lemma distribute_natCast (m n : ℕ) (hn : 0 < n) :
    distribute (m : ℚ) (n : ℤ) =
      if m < n then (List.range n).map (fun i => if i < m then (1 : ℚ) else 0)
      else (List.range n).map
        (fun i => if i < m % n then ((m / n : ℕ) : ℚ) + 1 else ((m / n : ℕ) : ℚ)) := by
  have hcast : (((n : ℤ) : ℚ)) = ((n : ℕ) : ℚ) := by push_cast; ring
  have htoNat : ((n : ℕ) : ℤ).toNat = n := Int.toNat_natCast n
  by_cases h : m < n
  · rw [if_pos h]
    unfold distribute
    rw [if_pos (by rw [hcast]; exact_mod_cast h), htoNat]
    apply List.map_congr_left
    intro i hi
    by_cases him : i < m
    · rw [if_pos (by exact_mod_cast him), if_pos him]
    · rw [if_neg (by exact_mod_cast him), if_neg him]
  · rw [if_neg h]
    unfold distribute
    rw [if_neg (by rw [hcast]; exact_mod_cast h), htoNat]
    have hfloor : ⌊(m : ℚ) / ((n : ℤ) : ℚ)⌋ = ((m / n : ℕ) : ℤ) := by
      rw [hcast]
      exact_mod_cast Rat.floor_natCast_div_natCast m n
    rw [hfloor]
    have hextra : (m : ℚ) - ((n : ℤ) : ℚ) * ((((m / n : ℕ) : ℤ)) : ℚ) = ((m % n : ℕ) : ℚ) := by
      have h2 : (n : ℚ) * ((m / n : ℕ) : ℚ) + ((m % n : ℕ) : ℚ) = (m : ℚ) := by
        exact_mod_cast Nat.div_add_mod m n
      rw [hcast, Int.cast_natCast]
      linarith
    rw [hextra]
    have hmod : m % n ≤ n := le_of_lt (Nat.mod_lt m hn)
    have := distributeLoop_eq_map ((((m / n : ℕ) : ℤ)) : ℚ) n (m % n) hmod
    rw [this]
    apply List.map_congr_left
    intro i _
    push_cast
    rfl

/-- C1: `distribute(m, n)` on a non-negative integer `m` and positive
integer `n` returns exactly `n` non-negative entries summing to `m`,
allocated as the spec states (`1`-prefix when `m < n`, otherwise
`⌊m/n⌋ + 1` for the first `m % n` workers and `⌊m/n⌋` for the rest);
in particular the internal sum assertion never fires. -/
theorem distribute_spec (m n : ℕ) (hn : 0 < n) :
    (distribute (m : ℚ) (n : ℤ)).length = n ∧
    (∀ x ∈ distribute (m : ℚ) (n : ℤ), 0 ≤ x) ∧
    sumList (distribute (m : ℚ) (n : ℤ)) = m ∧
    distributeChecked (m : ℚ) (n : ℤ) = .ok (distribute (m : ℚ) (n : ℤ)) ∧
    distribute (m : ℚ) (n : ℤ) =
      (List.range n).map (fun i =>
        if m < n then (if i < m then (1 : ℚ) else 0)
        else if i < m % n then ((m / n : ℕ) : ℚ) + 1 else ((m / n : ℕ) : ℚ)) := by
  have hchar := distribute_natCast m n hn
  have hsum : sumList (distribute (m : ℚ) (n : ℤ)) = m := by
    rw [hchar]
    by_cases h : m < n
    · rw [if_pos h]
      have hle : m ≤ n := le_of_lt h
      have hone : (fun i => if i < m then (1 : ℚ) else 0) =
          (fun i => if i < m then (0 : ℚ) + 1 else 0) := by
        funext i
        rw [zero_add]
      rw [hone, ← distributeLoop_eq_map 0 n m hle, sumList_distributeLoop 0 n m hle]
      simp
    · rw [if_neg h]
      have hmod : m % n ≤ n := le_of_lt (Nat.mod_lt m hn)
      rw [← distributeLoop_eq_map ((m / n : ℕ) : ℚ) n (m % n) hmod,
        sumList_distributeLoop ((m / n : ℕ) : ℚ) n (m % n) hmod]
      exact_mod_cast Nat.div_add_mod m n
  refine ⟨?_, ?_, hsum, ?_, ?_⟩
  · rw [hchar]
    by_cases h : m < n <;> simp [h]
  · intro x hx
    rw [hchar] at hx
    by_cases h : m < n
    · rw [if_pos h] at hx
      obtain ⟨i, _, rfl⟩ := List.mem_map.mp hx
      by_cases him : i < m <;> simp [him]
    · rw [if_neg h] at hx
      obtain ⟨i, _, rfl⟩ := List.mem_map.mp hx
      by_cases him : i < m % n
      · simp only [if_pos him]
        positivity
      · simp only [if_neg him]
        positivity
  · simp only [distributeChecked]
    rw [if_pos hsum.symm]
  · rw [hchar]
    by_cases h : m < n
    · rw [if_pos h]
      apply List.map_congr_left
      intro i _
      rw [if_pos h]
    · rw [if_neg h]
      apply List.map_congr_left
      intro i _
      rw [if_neg h]

/-! ### Helper lemmas: list indexing, `Except` plumbing, dispatch -/

lemma getD_range_map {α : Type} (f : ℕ → α) (k i : ℕ) (h : i < k) (d : α) :
    ((List.range k).map f).getD i d = f i := by
  rw [List.getD_eq_getElem?_getD, List.getElem?_map, List.getElem?_range h]
  rfl

lemma length_range_map {α : Type} (f : ℕ → α) (k : ℕ) :
    ((List.range k).map f).length = k := by
  simp

lemma distributeEven_getD (m : ℚ) (n : ℤ) (i : ℕ) (h : i < n.toNat) :
    (distributeEven m n).getD i 0 = m / (n : ℚ) :=
  getD_range_map _ n.toNat i h 0

lemma distributeChecked_ok (m : ℚ) (n : ℤ) (l : List ℚ)
    (h : distributeChecked m n = .ok l) : l = distribute m n := by
  unfold distributeChecked at h
  by_cases hs : m = sumList (distribute m n)
  · rw [if_pos hs] at h
    injection h with h
    exact h.symm
  · rw [if_neg hs] at h
    cases h

lemma phaseKind_eq_fixedCount (p : Phase) :
    phaseKind p = .fixedCount ↔
      truthyQ p.rampTo = false ∧ truthyQ p.arrivalRate = false ∧
        truthyQ p.arrivalCount = true := by
  unfold phaseKind
  cases hr : truthyQ p.rampTo <;> cases ha : truthyQ p.arrivalRate <;>
    cases hc : truthyQ p.arrivalCount <;> cases hp : truthyQ p.pause <;> simp

lemma phaseKind_eq_pauseKind (p : Phase) :
    phaseKind p = .pauseKind ↔
      truthyQ p.rampTo = false ∧ truthyQ p.arrivalRate = false ∧
        truthyQ p.arrivalCount = false ∧ truthyQ p.pause = true := by
  unfold phaseKind
  cases hr : truthyQ p.rampTo <;> cases ha : truthyQ p.arrivalRate <;>
    cases hc : truthyQ p.arrivalCount <;> cases hp : truthyQ p.pause <;> simp

lemma phaseKind_eq_unknown (p : Phase) :
    phaseKind p = .unknown ↔
      truthyQ p.rampTo = false ∧ truthyQ p.arrivalRate = false ∧
        truthyQ p.arrivalCount = false ∧ truthyQ p.pause = false := by
  unfold phaseKind
  cases hr : truthyQ p.rampTo <;> cases ha : truthyQ p.arrivalRate <;>
    cases hc : truthyQ p.arrivalCount <;> cases hp : truthyQ p.pause <;> simp

lemma phasePlan_of_fixedCount (p : Phase) (n : ℤ) (hk : phaseKind p = .fixedCount) :
    phasePlan p n = .ok ((List.range n.toNat).map (fun i =>
      if i = 0 then p else { name := p.name, pause := p.duration })) := by
  obtain ⟨h1, h2, h3⟩ := (phaseKind_eq_fixedCount p).mp hk
  simp [phasePlan, h1, h2, h3]

lemma phasePlan_of_pauseKind (p : Phase) (n : ℤ) (hk : phaseKind p = .pauseKind) :
    phasePlan p n = .ok ((List.range n.toNat).map (fun _ => p)) := by
  obtain ⟨h1, h2, h3, h4⟩ := (phaseKind_eq_pauseKind p).mp hk
  simp [phasePlan, h1, h2, h3, h4]

lemma phasePlan_of_unknown (p : Phase) (n : ℤ) (hk : phaseKind p = .unknown) :
    phasePlan p n = .ok ((List.range n.toNat).map (fun _ => p)) := by
  obtain ⟨h1, h2, h3, h4⟩ := (phaseKind_eq_unknown p).mp hk
  simp [phasePlan, h1, h2, h3, h4]

lemma phasePlan_of_ramping_mv (p : Phase) (n : ℤ) (h : truthyQ p.rampTo = true)
    (hmv : truthyQ p.maxVusers = true) (l : List ℚ)
    (hd : distributeChecked (p.maxVusers.getD 0) ((rampActiveWorkers p n : ℕ) : ℤ) = .ok l) :
    phasePlan p n = .ok ((List.range n.toNat).map (fun i =>
      { p with arrivalRate := some ((distributeEven (p.arrivalRate.getD 0) n).getD i 0),
               rampTo := some ((distributeEven (p.rampTo.getD 0) n).getD i 0),
               maxVusers := l.get? i })) := by
  simp [phasePlan, h, hmv, hd, Except.map]

lemma phasePlan_of_ramping_mv_error (p : Phase) (n : ℤ) (h : truthyQ p.rampTo = true)
    (hmv : truthyQ p.maxVusers = true) (e : String)
    (hd : distributeChecked (p.maxVusers.getD 0) ((rampActiveWorkers p n : ℕ) : ℤ) = .error e) :
    phasePlan p n = .error e := by
  simp [phasePlan, h, hmv, hd, Except.map]

lemma phasePlan_of_ramping_nomv (p : Phase) (n : ℤ) (h : truthyQ p.rampTo = true)
    (hmv : truthyQ p.maxVusers = false) :
    phasePlan p n = .ok ((List.range n.toNat).map (fun i =>
      { p with arrivalRate := some ((distributeEven (p.arrivalRate.getD 0) n).getD i 0),
               rampTo := some ((distributeEven (p.rampTo.getD 0) n).getD i 0) })) := by
  simp [phasePlan, h, hmv, Except.map]

/-- Witness for C1 at `m = 5`, `n = 3` (`distribute(5, 3) = [2, 2, 1]`). -/
theorem distribute_spec_witness :
    0 < 3 ∧
    ((distribute ((5 : ℕ) : ℚ) ((3 : ℕ) : ℤ)).length = 3 ∧
      (∀ x ∈ distribute ((5 : ℕ) : ℚ) ((3 : ℕ) : ℤ), 0 ≤ x) ∧
      sumList (distribute ((5 : ℕ) : ℚ) ((3 : ℕ) : ℤ)) = (5 : ℕ) ∧
      distributeChecked ((5 : ℕ) : ℚ) ((3 : ℕ) : ℤ) = .ok (distribute ((5 : ℕ) : ℚ) ((3 : ℕ) : ℤ)) ∧
      distribute ((5 : ℕ) : ℚ) ((3 : ℕ) : ℤ) =
        (List.range 3).map (fun i =>
          if 5 < 3 then (if i < 5 then (1 : ℚ) else 0)
          else if i < 5 % 3 then ((5 / 3 : ℕ) : ℚ) + 1 else ((5 / 3 : ℕ) : ℚ))) :=
  ⟨by decide, distribute_spec 5 3 (by decide)⟩

/-- C3: for a FixedCount phase (truthy `arrivalCount`, reached when
`rampTo` and `arrivalRate` are falsy) split across `n` workers, worker
0's copy is the original phase unmodified — in particular it retains
the entire `arrivalCount` and, if present, the entire `maxVusers` —
while every worker `i` with `1 ≤ i < n` receives in that position a
pause phase carrying the original `name` and `duration` (the pause
length sits in the `pause` field, as everywhere in this code base). -/
theorem fixedCount_isolation (p : Phase) (n : ℤ) (hk : phaseKind p = .fixedCount)
    (hn : 0 < n) (pl : List Phase) (hpl : phasePlan p n = .ok pl) :
    (pl.getD 0 default).arrivalCount = p.arrivalCount ∧
    (pl.getD 0 default).maxVusers = p.maxVusers ∧
    pl.getD 0 default = p ∧
    ∀ i, 1 ≤ i → i < n.toNat →
      pl.getD i default = { name := p.name, pause := p.duration } := by
  rw [phasePlan_of_fixedCount p n hk] at hpl
  injection hpl with hpl
  subst hpl
  have h0 : (0 : ℕ) < n.toNat := by omega
  rw [getD_range_map _ n.toNat 0 h0 default]
  refine ⟨by simp, by simp, by simp, ?_⟩
  intro i h1 hi
  rw [getD_range_map _ n.toNat i hi default, if_neg (by omega)]

/-- Witness for C3: the spec's example (`arrivalCount = 50`,
`duration = 60`, 3 workers). -/
theorem fixedCount_isolation_witness :
    phaseKind fixedCountPhaseEx = PhaseKind.fixedCount ∧
    (0 : ℤ) < 3 ∧
    phasePlan fixedCountPhaseEx 3 =
      .ok [fixedCountPhaseEx,
           { name := none, pause := some 60 },
           { name := none, pause := some 60 }] ∧
    (([fixedCountPhaseEx,
       ({ name := none, pause := some 60 } : Phase),
       ({ name := none, pause := some 60 } : Phase)].getD 0 default).arrivalCount =
        fixedCountPhaseEx.arrivalCount ∧
      ([fixedCountPhaseEx,
        ({ name := none, pause := some 60 } : Phase),
        ({ name := none, pause := some 60 } : Phase)].getD 0 default).maxVusers =
        fixedCountPhaseEx.maxVusers ∧
      [fixedCountPhaseEx,
       ({ name := none, pause := some 60 } : Phase),
       ({ name := none, pause := some 60 } : Phase)].getD 0 default = fixedCountPhaseEx ∧
      ∀ i, 1 ≤ i → i < (3 : ℤ).toNat →
        [fixedCountPhaseEx,
         ({ name := none, pause := some 60 } : Phase),
         ({ name := none, pause := some 60 } : Phase)].getD i default =
          { name := fixedCountPhaseEx.name, pause := fixedCountPhaseEx.duration }) :=
  ⟨by decide, by decide, by decide,
    fixedCount_isolation fixedCountPhaseEx 3 (by decide) (by decide) _ (by decide)⟩

/-- C4: a RampingRate phase (truthy `rampTo`) split across `n` workers
gives every worker `arrivalRate/n` (rate defaulting to 0 when absent)
and `rampTo/n`; a truthy `maxVusers` is integer-split across
`rampActiveWorkers` — `max(#positive rate shares, #positive ramp
shares)` — not across all `n`, worker `i` receiving entry `i` of that
split (absent beyond its length). -/
theorem rampingRate_split (p : Phase) (n : ℤ) (hramp : truthyQ p.rampTo = true)
    (_hn : 0 < n) (pl : List Phase) (hpl : phasePlan p n = .ok pl)
    (i : ℕ) (hi : i < n.toNat) :
    (pl.getD i default).arrivalRate = some (p.arrivalRate.getD 0 / (n : ℚ)) ∧
    (pl.getD i default).rampTo = some (p.rampTo.getD 0 / (n : ℚ)) ∧
    (truthyQ p.maxVusers = true →
      (pl.getD i default).maxVusers =
        (distribute (p.maxVusers.getD 0) ((rampActiveWorkers p n : ℕ) : ℤ)).get? i) := by
  by_cases hmv : truthyQ p.maxVusers = true
  · cases hd : distributeChecked (p.maxVusers.getD 0) ((rampActiveWorkers p n : ℕ) : ℤ) with
    | error e =>
      rw [phasePlan_of_ramping_mv_error p n hramp hmv e hd] at hpl
      cases hpl
    | ok l =>
      have hl : l = distribute (p.maxVusers.getD 0) ((rampActiveWorkers p n : ℕ) : ℤ) :=
        distributeChecked_ok _ _ _ hd
      rw [phasePlan_of_ramping_mv p n hramp hmv l hd] at hpl
      injection hpl with hpl
      subst hpl
      rw [getD_range_map _ n.toNat i hi default]
      refine ⟨?_, ?_, ?_⟩
      · show some ((distributeEven (p.arrivalRate.getD 0) n).getD i 0) = _
        rw [distributeEven_getD _ _ i hi]
      · show some ((distributeEven (p.rampTo.getD 0) n).getD i 0) = _
        rw [distributeEven_getD _ _ i hi]
      · intro _
        show l.get? i = _
        rw [hl]
  · have hmv' : truthyQ p.maxVusers = false := by
      cases h : truthyQ p.maxVusers
      · rfl
      · exact absurd h hmv
    rw [phasePlan_of_ramping_nomv p n hramp hmv'] at hpl
    injection hpl with hpl
    subst hpl
    rw [getD_range_map _ n.toNat i hi default]
    refine ⟨?_, ?_, ?_⟩
    · show some ((distributeEven (p.arrivalRate.getD 0) n).getD i 0) = _
      rw [distributeEven_getD _ _ i hi]
    · show some ((distributeEven (p.rampTo.getD 0) n).getD i 0) = _
      rw [distributeEven_getD _ _ i hi]
    · intro h
      exact absurd h hmv

/-- Witness for C4: the spec's example `RampingRate{arrivalRate: 0,
rampTo: 10, maxVusers: 100}` across 5 workers: every worker gets
`rampTo` share 2 and `maxVusers` share 20 (`rampingShareEx`). -/
theorem rampingRate_split_witness :
    truthyQ rampingPhaseEx.rampTo = true ∧
    (0 : ℤ) < 5 ∧
    phasePlan rampingPhaseEx 5 =
      .ok [rampingShareEx, rampingShareEx, rampingShareEx, rampingShareEx, rampingShareEx] ∧
    (0 : ℕ) < (5 : ℤ).toNat ∧
    (([rampingShareEx, rampingShareEx, rampingShareEx, rampingShareEx,
        rampingShareEx].getD 0 default).arrivalRate =
        some (rampingPhaseEx.arrivalRate.getD 0 / ((5 : ℤ) : ℚ)) ∧
      ([rampingShareEx, rampingShareEx, rampingShareEx, rampingShareEx,
        rampingShareEx].getD 0 default).rampTo =
        some (rampingPhaseEx.rampTo.getD 0 / ((5 : ℤ) : ℚ)) ∧
      (truthyQ rampingPhaseEx.maxVusers = true →
        ([rampingShareEx, rampingShareEx, rampingShareEx, rampingShareEx,
          rampingShareEx].getD 0 default).maxVusers =
          (distribute (rampingPhaseEx.maxVusers.getD 0)
            ((rampActiveWorkers rampingPhaseEx 5 : ℕ) : ℤ)).get? 0)) :=
  ⟨by decide, by decide, by decide, by decide,
    rampingRate_split rampingPhaseEx 5 (by decide) (by decide) _ (by decide) 0 (by decide)⟩

/-- C10: when `rampTo` is a positive number and the worker count `n` is
positive, every continuous `rampTo` share is positive, so
`rampActiveWorkers` equals `n`; hence a truthy `maxVusers` on such a
phase is integer-split across all `n` workers, never a strict subset. -/
theorem ramping_positive_rampTo_active (p : Phase) (n : ℤ) (v : ℚ)
    (hv : p.rampTo = some v) (hvpos : 0 < v) (hn : 0 < n) :
    rampActiveWorkers p n = n.toNat ∧
    (∀ pl, phasePlan p n = .ok pl → truthyQ p.maxVusers = true →
      ∀ i, i < n.toNat →
        (pl.getD i default).maxVusers =
          (distribute (p.maxVusers.getD 0) ((n.toNat : ℕ) : ℤ)).get? i) := by
  have hgd : p.rampTo.getD 0 = v := by rw [hv]; rfl
  have hramp : truthyQ p.rampTo = true := by
    rw [hv]
    simp only [truthyQ, decide_eq_true_eq]
    exact ne_of_gt hvpos
  have hactive : rampActiveWorkers p n = n.toNat := by
    unfold rampActiveWorkers
    rw [hgd]
    have hposdiv : (0 : ℚ) < v / (n : ℚ) := div_pos hvpos (by exact_mod_cast hn)
    have hall : (distributeEven v n).filter (fun r => decide (0 < r)) = distributeEven v n := by
      apply List.filter_eq_self.mpr
      intro a ha
      obtain ⟨j, _, rfl⟩ := List.mem_map.mp ha
      exact decide_eq_true hposdiv
    rw [hall]
    have hlen : (distributeEven v n).length = n.toNat := by
      unfold distributeEven
      simp
    rw [hlen]
    apply Nat.max_eq_right
    calc ((distributeEven (p.arrivalRate.getD 0) n).filter (fun r => decide (0 < r))).length
        ≤ (distributeEven (p.arrivalRate.getD 0) n).length := List.length_filter_le _ _
      _ = n.toNat := by unfold distributeEven; simp
  refine ⟨hactive, ?_⟩
  intro pl hpl hmv i hi
  have := (rampingRate_split p n hramp hn pl hpl i hi).2.2 hmv
  rw [hactive] at this
  exact this

/-- Witness for C10 at `rampTo = 10 > 0`, `maxVusers = 7`, `n = 2`:
both workers are active and `distribute(7, 2) = [4, 3]` is spread over
both. -/
theorem ramping_positive_rampTo_active_witness :
    ({ rampTo := some 10, maxVusers := some 7 } : Phase).rampTo = some 10 ∧
    (0 : ℚ) < 10 ∧
    (0 : ℤ) < 2 ∧
    (rampActiveWorkers { rampTo := some 10, maxVusers := some 7 } 2 = (2 : ℤ).toNat ∧
      (∀ pl, phasePlan { rampTo := some 10, maxVusers := some 7 } 2 = .ok pl →
        truthyQ ({ rampTo := some 10, maxVusers := some 7 } : Phase).maxVusers = true →
        ∀ i, i < (2 : ℤ).toNat →
          (pl.getD i default).maxVusers =
            (distribute (({ rampTo := some 10, maxVusers := some 7 } : Phase).maxVusers.getD 0)
              (((2 : ℤ).toNat : ℕ) : ℤ)).get? i)) :=
  ⟨by decide, by norm_num, by decide,
    ramping_positive_rampTo_active { rampTo := some 10, maxVusers := some 7 } 2 10
      (by decide) (by norm_num) (by decide)⟩

/-! ### Pipeline lemmas: plans, assembly, filtering, identity pass -/

lemma getD_map {α β : Type} (f : α → β) (l : List α) (j : ℕ) (h : j < l.length)
    (d : β) (d2 : α) : (l.map f).getD j d = f (l.getD j d2) := by
  rw [List.getD_eq_getElem?_getD, List.getElem?_map, List.getD_eq_getElem?_getD,
    List.getElem?_eq_getElem h]
  rfl

lemma buildPlans_ok (n : ℤ) :
    ∀ (l : List Phase) (plans : List (List Phase)), buildPlans n l = .ok plans →
      plans.length = l.length ∧
      ∀ j, j < l.length →
        phasePlan (l.getD j default) n = .ok (plans.getD j default) := by
  intro l
  induction l with
  | nil =>
    intro plans h
    injection h with h
    subst h
    refine ⟨rfl, ?_⟩
    intro j hj
    exact absurd hj (by simp)
  | cons ph rest ih =>
    intro plans h
    unfold buildPlans at h
    cases hp : phasePlan ph n with
    | error e =>
      rw [hp] at h
      cases h
    | ok pl =>
      rw [hp] at h
      cases hr : buildPlans n rest with
      | error e =>
        rw [hr] at h
        cases h
      | ok pls =>
        rw [hr] at h
        injection h with h
        subst h
        obtain ⟨hlen, hpt⟩ := ih pls hr
        refine ⟨by simp [hlen], ?_⟩
        intro j hj
        cases j with
        | zero => simpa using hp
        | succ j =>
          simp only [List.getD_cons_succ]
          exact hpt j (by simpa using hj)

lemma assembledScripts_ok (s : Script) (n : ℤ) (ns : List Script)
    (h : assembledScripts s n = .ok ns) :
    ∃ plans, buildPlans n s.config.phases = .ok plans ∧
      ns = (List.range n.toNat).map (fun i =>
        { s with config := { s.config with phases := plans.map (fun pl => pl.getD i default) },
                 before := none, after := none }) := by
  unfold assembledScripts at h
  cases hb : buildPlans n s.config.phases with
  | error e =>
    rw [hb] at h
    cases h
  | ok plans =>
    rw [hb] at h
    simp only [Except.map] at h
    injection h with h
    exact ⟨plans, rfl, h.symm⟩

lemma divideWork_ok (s : Script) (n : ℤ) (res : List Script)
    (h : divideWork s n = .ok res) :
    ∃ ns, assembledScripts s n = .ok ns ∧
      res = annotateFrom
        (ns.filter (fun sc => !(sc.config.phases.all isIdlePhase))).length 1
        (ns.filter (fun sc => !(sc.config.phases.all isIdlePhase))) := by
  unfold divideWork at h
  cases ha : assembledScripts s n with
  | error e =>
    rw [ha] at h
    cases h
  | ok ns =>
    rw [ha] at h
    simp only [Except.map] at h
    injection h with h
    exact ⟨ns, rfl, h.symm⟩

lemma annotateFrom_length (total : ℕ) :
    ∀ (l : List Script) (k : ℕ), (annotateFrom total k l).length = l.length := by
  intro l
  induction l with
  | nil => intro k; rfl
  | cons sc rest ih =>
    intro k
    simp [annotateFrom, ih]

lemma annotateFrom_getD (total : ℕ) :
    ∀ (l : List Script) (k j : ℕ), j < l.length →
      (annotateFrom total k l).getD j default =
        annotateScript total (k + j) (l.getD j default) := by
  intro l
  induction l with
  | nil =>
    intro k j hj
    exact absurd hj (by simp)
  | cons sc rest ih =>
    intro k j hj
    cases j with
    | zero => simp [annotateFrom]
    | succ j =>
      simp only [annotateFrom, List.getD_cons_succ]
      rw [ih (k + 1) j (by simpa using hj)]
      congr 1
      omega

lemma annotateFrom_mem (total : ℕ) :
    ∀ (l : List Script) (k : ℕ) (w : Script), w ∈ annotateFrom total k l →
      ∃ sc ∈ l, ∃ k2, w = annotateScript total k2 sc := by
  intro l
  induction l with
  | nil =>
    intro k w hw
    simp [annotateFrom] at hw
  | cons sc rest ih =>
    intro k w hw
    simp only [annotateFrom, List.mem_cons] at hw
    rcases hw with h | h
    · exact ⟨sc, List.mem_cons_self sc rest, k, h⟩
    · obtain ⟨sc2, hsc2, k2, hk2⟩ := ih (k + 1) w h
      exact ⟨sc2, List.mem_cons_of_mem sc hsc2, k2, hk2⟩

/-- C2: `divideWork` keeps, in original worker order, exactly the
assembled worker scripts that have at least one non-idle phase, and
every phase of the `k`-th survivor (0-based `k`) is annotated with
`totalWorkers` equal to the survivor count and `worker = k + 1`. -/
theorem divideWork_filter_annotate (s : Script) (n : ℤ) (_hn : 0 < n)
    (ns res : List Script) (hns : assembledScripts s n = .ok ns)
    (hres : divideWork s n = .ok res) :
    res = annotateFrom
      (ns.filter (fun sc => !(sc.config.phases.all isIdlePhase))).length 1
      (ns.filter (fun sc => !(sc.config.phases.all isIdlePhase))) ∧
    res.length = (ns.filter (fun sc => !(sc.config.phases.all isIdlePhase))).length ∧
    ∀ k, k < res.length → ∀ p ∈ (res.getD k default).config.phases,
      p.totalWorkers = some res.length ∧ p.worker = some (k + 1) := by
  obtain ⟨ns2, hns2, hr⟩ := divideWork_ok s n res hres
  rw [hns] at hns2
  injection hns2 with hns2
  subst hns2
  have hlen : res.length =
      (ns.filter (fun sc => !(sc.config.phases.all isIdlePhase))).length := by
    rw [hr, annotateFrom_length]
  refine ⟨hr, hlen, ?_⟩
  intro k hk p hp
  have hk2 : k < (ns.filter (fun sc => !(sc.config.phases.all isIdlePhase))).length := by
    rw [← hlen]
    exact hk
  rw [hr, annotateFrom_getD _ _ 1 k hk2] at hp
  simp only [annotateScript, List.mem_map] at hp
  obtain ⟨q, _, rfl⟩ := hp
  simp only [annotatePhase]
  exact ⟨by rw [hlen], by rw [Nat.add_comm]⟩

/-- Witness for C2: the spec's idle-filtering example — the 4-way split
of `ConstantRate{arrivalRate: 2}` assembles rate shares `[1,1,0,0]`,
keeps exactly 2 workers and annotates them `totalWorkers = 2`,
`worker = 1` and `2`. -/
theorem divideWork_filter_annotate_witness :
    (0 : ℤ) < 4 ∧
    assembledScripts constantScriptEx 4 =
      .ok [constantWorkerEx 1, constantWorkerEx 1, constantWorkerEx 0, constantWorkerEx 0] ∧
    divideWork constantScriptEx 4 = .ok [constantAnnotEx 1, constantAnnotEx 2] ∧
    ([constantAnnotEx 1, constantAnnotEx 2] =
        annotateFrom
          (([constantWorkerEx 1, constantWorkerEx 1, constantWorkerEx 0,
              constantWorkerEx 0].filter
            (fun sc => !(sc.config.phases.all isIdlePhase))).length) 1
          ([constantWorkerEx 1, constantWorkerEx 1, constantWorkerEx 0,
              constantWorkerEx 0].filter
            (fun sc => !(sc.config.phases.all isIdlePhase))) ∧
      [constantAnnotEx 1, constantAnnotEx 2].length =
        (([constantWorkerEx 1, constantWorkerEx 1, constantWorkerEx 0,
            constantWorkerEx 0].filter
          (fun sc => !(sc.config.phases.all isIdlePhase))).length) ∧
      ∀ k, k < [constantAnnotEx 1, constantAnnotEx 2].length →
        ∀ p ∈ ([constantAnnotEx 1, constantAnnotEx 2].getD k default).config.phases,
          p.totalWorkers = some [constantAnnotEx 1, constantAnnotEx 2].length ∧
          p.worker = some (k + 1)) :=
  ⟨by decide, by decide, by decide,
    divideWork_filter_annotate constantScriptEx 4 (by decide) _ _ (by decide) (by decide)⟩

/-- C8: every output worker script is the deep copy of the original
with only its phase list (and per-phase identity fields) changed: the
opaque top-level and config fields are preserved, and the `before` /
`after` hooks are absent regardless of the original. -/
theorem worker_scripts_frame (s : Script) (n : ℤ) (res : List Script)
    (h : divideWork s n = .ok res) :
    ∀ w ∈ res, w.before = none ∧ w.after = none ∧
      w.extra = s.extra ∧ w.config.extra = s.config.extra := by
  obtain ⟨ns, hns, hres⟩ := divideWork_ok s n res h
  obtain ⟨plans, _, hnsdef⟩ := assembledScripts_ok s n ns hns
  intro w hw
  rw [hres] at hw
  obtain ⟨sc, hscmem, k2, rfl⟩ := annotateFrom_mem _ _ _ w hw
  have hsc : sc ∈ ns := (List.mem_filter.mp hscmem).1
  rw [hnsdef] at hsc
  obtain ⟨i, _, rfl⟩ := List.mem_map.mp hsc
  simp [annotateScript]

/-- Witness for C8: a 2-way split of a script with `before`/`after`
hooks and opaque extra fields. -/
theorem worker_scripts_frame_witness :
    divideWork twoPhaseScriptEx 2 = .ok
      [annotateScript 2 1 twoPhaseWorkerEx, annotateScript 2 2 twoPhaseWorkerEx] ∧
    (∀ w ∈ [annotateScript 2 1 twoPhaseWorkerEx, annotateScript 2 2 twoPhaseWorkerEx],
      w.before = none ∧ w.after = none ∧
        w.extra = twoPhaseScriptEx.extra ∧
        w.config.extra = twoPhaseScriptEx.config.extra) :=
  ⟨by decide, worker_scripts_frame twoPhaseScriptEx 2 _ (by decide)⟩

/-- C9: every assembled worker script — and every filtered, annotated
output script — has exactly as many phases as the original, and the
phase at each position of worker `i` is entry `i` of the plan computed
by `phasePlan` from the original phase at that same position. -/
theorem phase_count_preserved (s : Script) (n : ℤ) (_hn : 0 < n)
    (plans : List (List Phase)) (hp : buildPlans n s.config.phases = .ok plans)
    (ns : List Script) (hns : assembledScripts s n = .ok ns)
    (res : List Script) (hres : divideWork s n = .ok res) :
    ns.length = n.toNat ∧
    (∀ w ∈ ns, w.config.phases.length = s.config.phases.length) ∧
    (∀ w ∈ res, w.config.phases.length = s.config.phases.length) ∧
    (∀ i, i < n.toNat → ∀ j, j < s.config.phases.length →
      phasePlan (s.config.phases.getD j default) n = .ok (plans.getD j default) ∧
      (ns.getD i default).config.phases.getD j default =
        (plans.getD j default).getD i default) := by
  obtain ⟨plans2, hp2, hnsdef⟩ := assembledScripts_ok s n ns hns
  rw [hp] at hp2
  injection hp2 with hp2
  subst hp2
  obtain ⟨hplen, hppt⟩ := buildPlans_ok n s.config.phases plans hp
  have hwlen : ∀ w ∈ ns, w.config.phases.length = s.config.phases.length := by
    intro w hw
    rw [hnsdef] at hw
    obtain ⟨i, _, rfl⟩ := List.mem_map.mp hw
    simp [hplen]
  refine ⟨by rw [hnsdef]; simp, hwlen, ?_, ?_⟩
  · obtain ⟨ns2, hns2, hr⟩ := divideWork_ok s n res hres
    rw [hns] at hns2
    injection hns2 with hns2
    subst hns2
    intro w hw
    rw [hr] at hw
    obtain ⟨sc, hscmem, k2, rfl⟩ := annotateFrom_mem _ _ _ w hw
    have hsc : sc ∈ ns := (List.mem_filter.mp hscmem).1
    have := hwlen sc hsc
    simpa [annotateScript] using this
  · intro i hi j hj
    refine ⟨hppt j hj, ?_⟩
    rw [hnsdef, getD_range_map _ n.toNat i hi default]
    show (plans.map (fun pl => pl.getD i default)).getD j default = _
    rw [getD_map _ plans j (by rw [hplen]; exact hj) default default]

/-- Witness for C9: the 2-way split of a two-phase script (one
constant-rate phase, one pause phase). -/
theorem phase_count_preserved_witness :
    (0 : ℤ) < 2 ∧
    buildPlans 2 twoPhaseScriptEx.config.phases = .ok twoPhasePlansEx ∧
    assembledScripts twoPhaseScriptEx 2 = .ok [twoPhaseWorkerEx, twoPhaseWorkerEx] ∧
    divideWork twoPhaseScriptEx 2 = .ok
      [annotateScript 2 1 twoPhaseWorkerEx, annotateScript 2 2 twoPhaseWorkerEx] ∧
    ([twoPhaseWorkerEx, twoPhaseWorkerEx].length = (2 : ℤ).toNat ∧
      (∀ w ∈ [twoPhaseWorkerEx, twoPhaseWorkerEx],
        w.config.phases.length = twoPhaseScriptEx.config.phases.length) ∧
      (∀ w ∈ [annotateScript 2 1 twoPhaseWorkerEx, annotateScript 2 2 twoPhaseWorkerEx],
        w.config.phases.length = twoPhaseScriptEx.config.phases.length) ∧
      (∀ i, i < (2 : ℤ).toNat → ∀ j, j < twoPhaseScriptEx.config.phases.length →
        phasePlan (twoPhaseScriptEx.config.phases.getD j default) 2 =
          .ok (twoPhasePlansEx.getD j default) ∧
        ([twoPhaseWorkerEx, twoPhaseWorkerEx].getD i default).config.phases.getD j default =
          (twoPhasePlansEx.getD j default).getD i default)) :=
  ⟨by decide, by decide, by decide, by decide,
    phase_count_preserved twoPhaseScriptEx 2 (by decide) _ (by decide) _ (by decide) _ (by decide)⟩

/-! ### C5: the input script is in fact mutated on one path -/

lemma mutatePhase_eq_self (p : Phase)
    (h : truthyQ p.rampTo = true → p.arrivalRate.isSome = true) :
    mutatePhase p = p := by
  unfold mutatePhase
  by_cases ht : truthyQ p.rampTo
  · rw [if_pos ht]
    have hsome : some (p.arrivalRate.getD 0) = p.arrivalRate := by
      cases har : p.arrivalRate with
      | none =>
        have := h ht
        rw [har] at this
        exact absurd this (by simp)
      | some v => rfl
    rw [hsome]
  · rw [if_neg ht]

lemma map_mutatePhase_eq_self (l : List Phase)
    (h : ∀ p ∈ l, truthyQ p.rampTo = true → p.arrivalRate.isSome = true) :
    l.map mutatePhase = l := by
  induction l with
  | nil => rfl
  | cons a t ih =>
    rw [List.map_cons, mutatePhase_eq_self a (h a (List.mem_cons_self a t)),
      ih (fun p hp hq => h p (List.mem_cons_of_mem a hp) hq)]

/-- Counterexample to C5: on a ramping phase with no `arrivalRate`
field, `divideWork` adds `arrivalRate = 0` to the *original* phase
object (`phase.arrivalRate = phase.arrivalRate || 0`), so the input
script does not come out unchanged. -/
theorem divideWork_mutates_input_counterexample :
    finalScript rampNoRateScriptEx ≠ rampNoRateScriptEx ∧
    ((finalScript rampNoRateScriptEx).config.phases.getD 0 default).arrivalRate = some 0 ∧
    (rampNoRateScriptEx.config.phases.getD 0 default).arrivalRate = none := by decide

/-- C5 amended: the partitioning call leaves the input unchanged
*except* that every phase with a truthy `rampTo` gets its
`arrivalRate` field coerced to `arrivalRate || 0`; in particular the
input is unchanged whenever every such phase already carries an
`arrivalRate` field. -/
theorem divideWork_input_frame_amended (s : Script)
    (h : ∀ p ∈ s.config.phases, truthyQ p.rampTo = true → p.arrivalRate.isSome = true) :
    finalScript s = s := by
  unfold finalScript
  rw [map_mutatePhase_eq_self s.config.phases h]

/-- Witness for the amended C5: a script with no ramping phase. -/
theorem divideWork_input_frame_amended_witness :
    (∀ p ∈ constantScriptEx.config.phases,
      truthyQ p.rampTo = true → p.arrivalRate.isSome = true) ∧
    finalScript constantScriptEx = constantScriptEx :=
  ⟨by decide, divideWork_input_frame_amended constantScriptEx (by decide)⟩

/-! ### C6: non-positive worker counts are not validated -/

/-- Counterexample to C6: for a pause-only script and `numWorkers = 0`
the partitioner performs no fail-fast validation at all — it runs its
loops zero times and returns the empty array as a perfectly normal
result (`.ok`), rather than failing with a descriptive error. -/
theorem no_failfast_counterexample : divideWork pauseScriptEx 0 = .ok [] := by decide

/-- C6 amended: a zero or negative worker count is not rejected: the
loops simply run zero times, and for any script all of whose phases are
pause phases (so no integer-split assertion can fire) `divideWork`
returns the empty list as a normal result. -/
theorem nonpositive_workers_no_failfast (s : Script) (n : ℤ) (hn : n ≤ 0)
    (hall : ∀ p ∈ s.config.phases, phaseKind p = .pauseKind) :
    divideWork s n = .ok [] := by
  have h0 : n.toNat = 0 := Int.toNat_of_nonpos hn
  have hb : ∀ l : List Phase, (∀ p ∈ l, phaseKind p = .pauseKind) →
      ∃ plans, buildPlans n l = .ok plans := by
    intro l
    induction l with
    | nil =>
      intro _
      exact ⟨[], rfl⟩
    | cons a t ih =>
      intro hall2
      obtain ⟨plans, hplans⟩ := ih (fun p hp => hall2 p (List.mem_cons_of_mem a hp))
      refine ⟨((List.range n.toNat).map (fun _ => a)) :: plans, ?_⟩
      unfold buildPlans
      rw [phasePlan_of_pauseKind a n (hall2 a (List.mem_cons_self a t)), hplans]
  obtain ⟨plans, hplans⟩ := hb s.config.phases hall
  unfold divideWork assembledScripts
  rw [hplans]
  simp [Except.map, h0, annotateFrom]

/-- Witness for the amended C6 at `numWorkers = -2`. -/
theorem nonpositive_workers_no_failfast_witness :
    (-2 : ℤ) ≤ 0 ∧
    (∀ p ∈ pauseScriptEx.config.phases, phaseKind p = PhaseKind.pauseKind) ∧
    divideWork pauseScriptEx (-2) = .ok [] :=
  ⟨by decide, by decide,
    nonpositive_workers_no_failfast pauseScriptEx (-2) (by decide) (by decide)⟩

/-! ### C7: the dispatch tests truthiness, not presence -/

/-- Counterexample to C7: on a phase with `arrivalRate: 0` (present but
falsy) and `arrivalCount: 10`, the claim's presence-based order picks
constant-rate, but the code's truthiness tests fall through to the
fixed-count branch — observably so, since worker 1's copy is replaced
by a pause phase, which constant-rate splitting never does. -/
theorem presence_dispatch_counterexample :
    claimPresenceKind zeroRatePhaseEx = PhaseKind.constantRate ∧
    phaseKind zeroRatePhaseEx = PhaseKind.fixedCount ∧
    phasePlan zeroRatePhaseEx 2 =
      .ok [zeroRatePhaseEx, { name := none, pause := some 60 }] := by decide

/-- C7 amended: exactly one kind applies per phase, determined by JS
*truthiness* of the fields (`undefined` and `0` are falsy), tested in
source order — ramping (`rampTo` truthy), constant-rate (`arrivalRate`
truthy, `rampTo` falsy), fixed-count (`arrivalCount` truthy), pause
(`pause` truthy), otherwise Unknown — and an Unknown phase is passed
through unmodified to every worker while the computation continues
without failing (the anomaly is only logged). -/
theorem phase_dispatch_amended (p : Phase) (n : ℤ) :
    (truthyQ p.rampTo = true → phaseKind p = .ramping) ∧
    (truthyQ p.rampTo = false → truthyQ p.arrivalRate = true →
      phaseKind p = .constantRate) ∧
    (truthyQ p.rampTo = false → truthyQ p.arrivalRate = false →
      truthyQ p.arrivalCount = true → phaseKind p = .fixedCount) ∧
    (truthyQ p.rampTo = false → truthyQ p.arrivalRate = false →
      truthyQ p.arrivalCount = false → truthyQ p.pause = true →
      phaseKind p = .pauseKind) ∧
    (truthyQ p.rampTo = false → truthyQ p.arrivalRate = false →
      truthyQ p.arrivalCount = false → truthyQ p.pause = false →
      phaseKind p = .unknown) ∧
    (phaseKind p = .unknown →
      phasePlan p n = .ok ((List.range n.toNat).map (fun _ => p))) := by
  refine ⟨?_, ?_, ?_, ?_, ?_, phasePlan_of_unknown p n⟩
  · intro h1
    simp [phaseKind, h1]
  · intro h1 h2
    simp [phaseKind, h1, h2]
  · intro h1 h2 h3
    simp [phaseKind, h1, h2, h3]
  · intro h1 h2 h3 h4
    simp [phaseKind, h1, h2, h3, h4]
  · intro h1 h2 h3 h4
    simp [phaseKind, h1, h2, h3, h4]

/-- Witness for the amended C7 at a phase carrying only `duration`
(an Unknown phase) and `n = 3`: it is passed through unmodified to all
3 workers. -/
theorem phase_dispatch_amended_witness :
    (truthyQ ({ duration := some 5 } : Phase).rampTo = true →
      phaseKind { duration := some 5 } = PhaseKind.ramping) ∧
    (truthyQ ({ duration := some 5 } : Phase).rampTo = false →
      truthyQ ({ duration := some 5 } : Phase).arrivalRate = true →
      phaseKind { duration := some 5 } = PhaseKind.constantRate) ∧
    (truthyQ ({ duration := some 5 } : Phase).rampTo = false →
      truthyQ ({ duration := some 5 } : Phase).arrivalRate = false →
      truthyQ ({ duration := some 5 } : Phase).arrivalCount = true →
      phaseKind { duration := some 5 } = PhaseKind.fixedCount) ∧
    (truthyQ ({ duration := some 5 } : Phase).rampTo = false →
      truthyQ ({ duration := some 5 } : Phase).arrivalRate = false →
      truthyQ ({ duration := some 5 } : Phase).arrivalCount = false →
      truthyQ ({ duration := some 5 } : Phase).pause = true →
      phaseKind { duration := some 5 } = PhaseKind.pauseKind) ∧
    (truthyQ ({ duration := some 5 } : Phase).rampTo = false →
      truthyQ ({ duration := some 5 } : Phase).arrivalRate = false →
      truthyQ ({ duration := some 5 } : Phase).arrivalCount = false →
      truthyQ ({ duration := some 5 } : Phase).pause = false →
      phaseKind { duration := some 5 } = PhaseKind.unknown) ∧
    (phaseKind { duration := some 5 } = PhaseKind.unknown →
      phasePlan { duration := some 5 } 3 =
        .ok ((List.range (3 : ℤ).toNat).map (fun _ => ({ duration := some 5 } : Phase)))) :=
  phase_dispatch_amended { duration := some 5 } 3

end Artillery
